import Mathlib

/-!
# HX711 driver and GPIO helper: a shallow embedding

Source files embedded here: `hx711.cpp` (class `HX711`) and `hw_gpio.c`
(`HW_GPIO_Init`).

Modelling conventions.

* Ports and pins are natural numbers (a port is its base address, a pin is the
  16-bit HAL pin mask).
* The platform primitives (`HAL_GPIO_WritePin`, `HAL_GPIO_ReadPin`,
  `HAL_GPIO_Init`, `HAL_GetTick`, the PRIMASK intrinsics) are not part of the
  repository.  They act on an explicit hardware state `Hw`: pin writes, pin
  samples, pin-init calls, clock-gate enables and changes of the interrupt
  mask are appended to a trace, the
  level returned by the k-th sample of the data pin and the value returned by
  the k-th call of `HAL_GetTick` are given by two arbitrary streams.
* Arguments of type `uint8_t`/`uint16_t` are natural numbers; the theorems
  state the range where it matters.
* `int32_t`/`uint32_t` values are bit patterns in `Nat` reduced modulo `2^32`;
  `toInt32` reads a pattern as a two's-complement number.
* The polling loop of `wait_ready_timeout` need not terminate (the tick counter
  may stand still), so it takes a fuel argument and returns `none` when the
  fuel is exhausted.  The `for` loops are bounded and recurse on the number of
  iterations left; the loop of `HW_GPIO_Init` recurses on the mask, which
  decreases with every shift.
-/

namespace HX711Lib

set_option maxRecDepth 8192

/-! ## Platform model -/

/-- The HAL pin configuration record `GPIO_InitTypeDef`. -/
structure GPIO_InitTypeDef where
  Pin : Nat
  Mode : Nat
  Pull : Nat
  Speed : Nat
  Alternate : Nat
  deriving DecidableEq, Repr

/-- Observable hardware actions. -/
inductive Event where
  | write (port pin : Nat) (level : Bool)
  | sample (port pin : Nat) (level : Bool)
  | pinInit (port : Nat) (cfg : GPIO_InitTypeDef)
  | clkEnable (port : Nat)
  | irqMask (masked : Bool)
  deriving DecidableEq, Repr

/-- Hardware state seen by the driver. -/
structure Hw where
  /-- level returned by the k-th sample of a pin (`true` is `GPIO_PIN_SET`) -/
  dt : Nat → Bool
  /-- number of samples taken so far -/
  dtCount : Nat
  /-- value returned by the k-th call of `HAL_GetTick` -/
  tick : Nat → Nat
  /-- number of `HAL_GetTick` calls so far -/
  tickCount : Nat
  /-- the PRIMASK bit: `true` when interrupts are masked -/
  primask : Bool
  /-- indeterminate content of an uninitialised stack slot -/
  uninit : Nat
  /-- actions performed so far, oldest first -/
  trace : List Event

def GPIO_MODE_INPUT : Nat := 0
def GPIO_MODE_OUTPUT_PP : Nat := 1
def GPIO_NOPULL : Nat := 0
def GPIO_SPEED_FREQ_LOW : Nat := 0

/-- `HAL_GPIO_WritePin(port, pin, level)`. -/
def HAL_GPIO_WritePin (port pin : Nat) (level : Bool) (hw : Hw) : Hw :=
  { hw with trace := hw.trace ++ [Event.write port pin level] }

/-- `HAL_GPIO_ReadPin(port, pin)`: the next value of the sample stream. -/
def HAL_GPIO_ReadPin (port pin : Nat) (hw : Hw) : Bool × Hw :=
  let b := hw.dt hw.dtCount
  (b, { hw with dtCount := hw.dtCount + 1,
                trace := hw.trace ++ [Event.sample port pin b] })

/-- `HAL_GPIO_Init(port, &cfg)`. -/
def HAL_GPIO_Init (port : Nat) (cfg : GPIO_InitTypeDef) (hw : Hw) : Hw :=
  { hw with trace := hw.trace ++ [Event.pinInit port cfg] }

/-- `RCC_GPIO_CLK_ENABLE(port)`: enables the clock gate of the port. -/
def RCC_GPIO_CLK_ENABLE (port : Nat) (hw : Hw) : Hw :=
  { hw with trace := hw.trace ++ [Event.clkEnable port] }

/-- `HAL_GetTick()`: the next value of the tick stream, as a `uint32_t`. -/
def HAL_GetTick (hw : Hw) : Nat × Hw :=
  (hw.tick hw.tickCount % 2 ^ 32, { hw with tickCount := hw.tickCount + 1 })

/-- `__get_PRIMASK()`. -/
def get_PRIMASK (hw : Hw) : Nat := if hw.primask then 1 else 0

/-- `__disable_irq()`. -/
def disable_irq (hw : Hw) : Hw :=
  { hw with primask := true, trace := hw.trace ++ [Event.irqMask true] }

/-- `__set_PRIMASK(v)`: only bit 0 is implemented. -/
def set_PRIMASK (v : Nat) (hw : Hw) : Hw :=
  { hw with primask := decide (v % 2 = 1),
            trace := hw.trace ++ [Event.irqMask (decide (v % 2 = 1))] }

/-- Two's-complement reading of a 32-bit pattern. -/
def toInt32 (u : Nat) : Int :=
  if u % 2 ^ 32 < 2 ^ 31 then ((u % 2 ^ 32 : Nat) : Int) else ((u % 2 ^ 32 : Nat) : Int) - 2 ^ 32

/-- An `int` result stored into an `int32_t`. -/
def wrapInt32 (z : Int) : Int :=
  toInt32 (z % 2 ^ 32).toNat

/-! ## `hx711.cpp` -/

/-- The fields of class `HX711`. -/
structure HX711 where
  SCK_PIN : Nat
  DT_PIN : Nat
  SCK_PORT : Nat
  DT_PORT : Nat
  GAIN : Nat
  deriving DecidableEq, Repr

/-- The parameter record `sHX711Param_t`. -/
structure sHX711Param_t where
  dtPort : Nat
  sckPort : Nat
  dtPin : Nat
  sckPin : Nat
  gain : Nat

/-- `HX711::HX711(sHX711Param_t &)`; `gain` and `GAIN` are `uint8_t`. -/
def HX711.ofParam (p : sHX711Param_t) : HX711 :=
  { SCK_PIN := p.sckPin, DT_PIN := p.dtPin, SCK_PORT := p.sckPort, DT_PORT := p.dtPort,
    GAIN := p.gain }

/-- `HX711::HX711(dtPort, sckPort, dtPin, sckPin, gain)`. -/
def HX711.ofFields (dtPort sckPort dtPin sckPin gain : Nat) : HX711 :=
  { SCK_PIN := sckPin, DT_PIN := dtPin, SCK_PORT := sckPort, DT_PORT := dtPort,
    GAIN := gain }

/-- `HX711::is_ready`. -/
def HX711.is_ready (self : HX711) (hw : Hw) : Bool × Hw :=
  let r := HAL_GPIO_ReadPin self.DT_PORT self.DT_PIN hw
  (r.1 == false, r.2)

/-- The `while` loop of `wait_ready_timeout`, one iteration per unit of fuel. -/
def HX711.wait_loop (self : HX711) (tickstart timeout : Nat) : Nat → Hw → Option (Bool × Hw)
  | 0, _ => none
  | fuel + 1, hw =>
    let t := HAL_GetTick hw
    if (t.1 + 2 ^ 32 - tickstart) % 2 ^ 32 < timeout then
      let r := self.is_ready t.2
      if r.1 then some (true, r.2) else HX711.wait_loop self tickstart timeout fuel r.2
    else some (false, t.2)

/-- `HX711::wait_ready_timeout`. -/
def HX711.wait_ready_timeout (self : HX711) (fuel timeout : Nat) (hw : Hw) : Option (Bool × Hw) :=
  let t := HAL_GetTick hw
  self.wait_loop t.1 timeout fuel t.2

/-- The 24-pulse loop of `read`; the first argument is the number of iterations left. -/
def HX711.read_bits (self : HX711) : Nat → Nat → Hw → Nat × Hw
  | 0, buffer, hw => (buffer, hw)
  | n + 1, buffer, hw =>
    let hw1 := HAL_GPIO_WritePin self.SCK_PORT self.SCK_PIN true hw
    let buffer1 := (buffer * 2) % 2 ^ 32
    let r := HAL_GPIO_ReadPin self.DT_PORT self.DT_PIN hw1
    let buffer2 := if r.1 then (buffer1 + 1) % 2 ^ 32 else buffer1
    let hw2 := HAL_GPIO_WritePin self.SCK_PORT self.SCK_PIN false r.2
    HX711.read_bits self n buffer2 hw2

/-- The gain-pulse loop of `read`; the first argument is the number of iterations left. -/
def HX711.gain_pulses (self : HX711) : Nat → Hw → Hw
  | 0, hw => hw
  | n + 1, hw =>
    let hw1 := HAL_GPIO_WritePin self.SCK_PORT self.SCK_PIN true hw
    let hw2 := HAL_GPIO_WritePin self.SCK_PORT self.SCK_PIN false hw1
    HX711.gain_pulses self n hw2

/-- The body of `read` after a successful wait. -/
def HX711.transfer (self : HX711) (hw : Hw) : Int × Hw :=
  let hw1 := HAL_GPIO_WritePin self.SCK_PORT self.SCK_PIN false hw
  let primask_bit := get_PRIMASK hw1
  let hw2 := disable_irq hw1
  let r := self.read_bits 24 0 hw2
  let hw3 := self.gain_pulses self.GAIN r.2
  let hw4 := set_PRIMASK primask_bit hw3
  let buffer := if r.1 &&& 0x800000 ≠ 0 then (0xFF <<< 24 ||| r.1) % 2 ^ 32 else r.1
  (toInt32 buffer, hw4)

/-- `HX711::read`. -/
def HX711.read (self : HX711) (fuel : Nat) (hw : Hw) : Option (Int × Hw) :=
  match self.wait_ready_timeout fuel 150 hw with
  | none => none
  | some (false, hw1) => some (-1, hw1)
  | some (true, hw1) => some (self.transfer hw1)

/-- `HX711::set_gain`. -/
def HX711.set_gain (self : HX711) (fuel : Nat) (gain : Nat) (hw : Hw) : Option (HX711 × Hw) :=
  let self1 : HX711 :=
    if gain = 128 then { self with GAIN := 1 }
    else if gain = 64 then { self with GAIN := 3 }
    else if gain = 32 then { self with GAIN := 2 }
    else self
  let hw1 := HAL_GPIO_WritePin self1.SCK_PORT self1.SCK_PIN false hw
  match self1.read fuel hw1 with
  | none => none
  | some (_, hw2) => some (self1, hw2)

/-- `HX711::begin`. -/
def HX711.begin (self : HX711) (fuel : Nat) (hw : Hw) : Option (HX711 × Hw) :=
  let hw1 := RCC_GPIO_CLK_ENABLE self.SCK_PORT hw
  let cfg1 : GPIO_InitTypeDef :=
    { Pin := self.SCK_PIN, Mode := GPIO_MODE_OUTPUT_PP, Pull := GPIO_NOPULL,
      Speed := GPIO_SPEED_FREQ_LOW, Alternate := hw.uninit }
  let hw2 := HAL_GPIO_Init self.SCK_PORT cfg1 hw1
  let hw3 := RCC_GPIO_CLK_ENABLE self.DT_PORT hw2
  let cfg2 : GPIO_InitTypeDef :=
    { cfg1 with Mode := GPIO_MODE_INPUT, Pull := GPIO_NOPULL, Speed := GPIO_SPEED_FREQ_LOW,
                Pin := self.DT_PIN }
  let hw4 := HAL_GPIO_Init self.DT_PORT cfg2 hw3
  self.set_gain fuel self.GAIN hw4

/-- The summation loop of `read_average`; the first argument is the number of
iterations left, `sum` is the `int32_t` accumulator. -/
def HX711.sum_loop (self : HX711) (fuel : Nat) : Nat → Int → Hw → Option (Int × Hw)
  | 0, sum, hw => some (sum, hw)
  | n + 1, sum, hw =>
    match self.read fuel hw with
    | none => none
    | some (v, hw1) => HX711.sum_loop self fuel n (wrapInt32 (sum + v)) hw1

/-- `HX711::read_average`; division by zero has no defined result. -/
def HX711.read_average (self : HX711) (fuel : Nat) (times : Nat) (hw : Hw) : Option (Int × Hw) :=
  match self.sum_loop fuel times 0 hw with
  | none => none
  | some (sum, hw1) => if times = 0 then none else some (Int.tdiv sum times, hw1)

/-! ## `hw_gpio.c` -/

/-- The `while` loop of `HW_GPIO_Init`. -/
def HW_GPIO_Init_loop (port : Nat) (pinPos GPIO_Pin : Nat) (initStruct : GPIO_InitTypeDef)
    (hw : Hw) : GPIO_InitTypeDef × Hw :=
  if GPIO_Pin = 0 then (initStruct, hw)
  else
    if GPIO_Pin &&& 1 ≠ 0 then
      let initStruct1 := { initStruct with Pin := pinPos }
      let hw1 := HAL_GPIO_Init port initStruct1 hw
      HW_GPIO_Init_loop port ((pinPos + 1) % 2 ^ 32) (GPIO_Pin >>> 1) initStruct1 hw1
    else
      HW_GPIO_Init_loop port ((pinPos + 1) % 2 ^ 32) (GPIO_Pin >>> 1) initStruct hw
termination_by GPIO_Pin
decreasing_by
  all_goals simp_wf
  all_goals rw [Nat.shiftRight_eq_div_pow]
  all_goals omega

/-- `HW_GPIO_Init(port, GPIO_Pin, initStruct)`; `GPIO_Pin` is a `uint16_t`.  Returns the
record the caller's pointer refers to afterwards and the new hardware state.  The three
`assert_param` lines expand to nothing unless `USE_FULL_ASSERT` is defined. -/
def HW_GPIO_Init (port : Nat) (GPIO_Pin : Nat) (initStruct : GPIO_InitTypeDef) (hw : Hw) :
    GPIO_InitTypeDef × Hw :=
  let hw1 := RCC_GPIO_CLK_ENABLE port hw
  HW_GPIO_Init_loop port 1 GPIO_Pin initStruct hw1

/-! ## Vocabulary of the statements -/

/-- Sign extension of a 24-bit pattern from bit 23: the two's-complement value. -/
def signExtend24 (v : Nat) : Int :=
  if v < 2 ^ 23 then (v : Int) else (v : Int) - 2 ^ 24

/-- The events of `n` data pulses on the pins of `self`, the samples being taken
from position `c` of the stream `dt` onwards. -/
def dataPulses (self : HX711) (dt : Nat → Bool) (c n : Nat) : List Event :=
  (List.range n).flatMap fun i =>
    [Event.write self.SCK_PORT self.SCK_PIN true,
     Event.sample self.DT_PORT self.DT_PIN (dt (c + i)),
     Event.write self.SCK_PORT self.SCK_PIN false]

/-- The events of `g` clock pulses without sampling. -/
def gainPulses (self : HX711) (g : Nat) : List Event :=
  (List.replicate g
    [Event.write self.SCK_PORT self.SCK_PIN true,
     Event.write self.SCK_PORT self.SCK_PIN false]).flatten

/-- Tick difference seen by the `j`-th test of the polling loop of a wait started in `hw`. -/
def elapsed (hw : Hw) (j : Nat) : Nat :=
  (hw.tick (hw.tickCount + 1 + j) % 2 ^ 32 + 2 ^ 32 - hw.tick hw.tickCount % 2 ^ 32) % 2 ^ 32

/-- The wait started in `hw` ends within `fuel` polls: at some poll the timeout has
elapsed or the data line is low. -/
def WaitEnds (hw : Hw) (timeout fuel : Nat) : Prop :=
  ∃ j, j < fuel ∧ (timeout ≤ elapsed hw j ∨ hw.dt (hw.dtCount + j) = false)

/-- The wait started in `hw` finds the data line low at poll `j`, before the timeout
and within the fuel. -/
def ReadyAt (hw : Hw) (timeout fuel j : Nat) : Prop :=
  j < fuel ∧ hw.dt (hw.dtCount + j) = false ∧
    (∀ i, i < j → hw.dt (hw.dtCount + i) = true) ∧ (∀ i, i ≤ j → elapsed hw i < timeout)

/-- The wait started in `hw` times out at poll `j`, within the fuel. -/
def TimesOutAt (hw : Hw) (timeout fuel j : Nat) : Prop :=
  j < fuel ∧ timeout ≤ elapsed hw j ∧
    (∀ i, i < j → hw.dt (hw.dtCount + i) = true) ∧ (∀ i, i < j → elapsed hw i < timeout)

/-- The hardware state after a wait that sampled the data pin `k` times and called
`HAL_GetTick` `t` times. -/
def afterWait (self : HX711) (hw : Hw) (k t : Nat) : Hw :=
  { hw with
    dtCount := hw.dtCount + k
    tickCount := hw.tickCount + t
    trace := hw.trace ++ (List.range k).map fun i =>
      Event.sample self.DT_PORT self.DT_PIN (hw.dt (hw.dtCount + i)) }

/-- The calls a control program can make on a converter instance. -/
inductive Op where
  | begin
  | set_gain (gain : Nat)
  | read
  | read_average (times : Nat)

/-- One call; the `uint8_t` arguments are taken modulo 256, and `read` and
`read_average` leave the instance unchanged. -/
def HX711.step (fuel : Nat) (op : Op) (st : HX711 × Hw) : Option (HX711 × Hw) :=
  match op with
  | Op.begin => st.1.begin fuel st.2
  | Op.set_gain gain => st.1.set_gain fuel (gain % 256) st.2
  | Op.read => (st.1.read fuel st.2).map fun r => (st.1, r.2)
  | Op.read_average times =>
    (st.1.read_average fuel (times % 256) st.2).map fun r => (st.1, r.2)

/-- A sequence of calls, each made on the state left by the previous one. -/
def HX711.run (fuel : Nat) : List Op → HX711 × Hw → Option (HX711 × Hw)
  | [], st => some st
  | op :: ops, st =>
    match HX711.step fuel op st with
    | none => none
    | some st1 => HX711.run fuel ops st1

/-- The results of `n` consecutive calls of `read` and the hardware state after them. -/
def HX711.readTimes (self : HX711) (fuel : Nat) : Nat → Hw → Option (List Int × Hw)
  | 0, hw => some ([], hw)
  | n + 1, hw =>
    match self.read fuel hw with
    | none => none
    | some (v, hw1) =>
      match HX711.readTimes self fuel n hw1 with
      | none => none
      | some (vs, hw2) => some (v :: vs, hw2)

/-- Consecutive calls of `read` starting in `hw` each find the data line low before
the timeout, and they return the values `vs`. -/
def SuccessfulReads (self : HX711) (fuel : Nat) : List Int → Hw → Prop
  | [], _ => True
  | v :: vs, hw =>
    ∃ j hw1, ReadyAt hw 150 fuel j ∧ self.read fuel hw = some (v, hw1) ∧
      SuccessfulReads self fuel vs hw1

/-- The stored selector is one of the three pulse counts. -/
def ValidGain (g : Nat) : Prop := g = 1 ∨ g = 2 ∨ g = 3

/-- The positions of the set bits of a 16-bit mask, lowest first. -/
def setBits (m : Nat) : List Nat :=
  (List.range 16).filter fun i => m.testBit i

/-! ## Concrete hardware used by the examples -/

/-- A driver instance on two pins of two ports, constructed with gain 128. -/
def demo : HX711 := HX711.ofFields 0x40020000 0x40020400 0x0001 0x0002 128

/-- The same instance with the pulse count of gain 128 stored, as `begin` leaves it. -/
def demoBegun : HX711 := { demo with GAIN := 1 }

/-- Data line of a device that is ready whenever polled and then shifts out the
24 bits of `v`, most significant first. -/
def deviceStream (v : Nat) : Nat → Bool :=
  fun k => if k % 25 = 0 then false else v.testBit (24 - k % 25)

/-- Hardware with such a device attached, interrupts enabled, tick counter at rest. -/
def hwDevice (v : Nat) : Hw :=
  { dt := deviceStream v, dtCount := 0, tick := fun _ => 0, tickCount := 0,
    primask := false, uninit := 0, trace := [] }

/-- Hardware without a device: the data line stays high and every call of
`HAL_GetTick` sees 150 more ticks. -/
def hwAbsent : Hw :=
  { dt := fun _ => true, dtCount := 0, tick := fun k => 150 * k, tickCount := 0,
    primask := true, uninit := 0, trace := [] }

/-- The levels written to the clock pin of `self`, oldest first. -/
def clockWrites (self : HX711) (trace : List Event) : List Bool :=
  trace.filterMap fun e =>
    match e with
    | Event.write port pin level =>
      if port = self.SCK_PORT ∧ pin = self.SCK_PIN then some level else none
    | _ => none

/-- A push-pull output configuration. -/
def demoConfig : GPIO_InitTypeDef :=
  { Pin := 0, Mode := GPIO_MODE_OUTPUT_PP, Pull := GPIO_NOPULL, Speed := GPIO_SPEED_FREQ_LOW,
    Alternate := 0 }

/-! ## The polling loop -/

theorem range_succ_flatMap {α : Type} (n : Nat) (f : Nat → List α) :
    (List.range (n + 1)).flatMap f = f 0 ++ (List.range n).flatMap fun i => f (i + 1) := by
  rw [List.range_succ_eq_map, List.flatMap_cons]
  congr 1
  induction List.range n with
  | nil => rfl
  | cons a l ih => simp [List.flatMap_cons, ih]

theorem range_succ_map {α : Type} (n : Nat) (f : Nat → α) :
    (List.range (n + 1)).map f = f 0 :: (List.range n).map fun i => f (i + 1) := by
  rw [List.range_succ_eq_map, List.map_cons, List.map_map]
  rfl

/-- The loop finds the data line low at its `j`-th poll. -/
theorem wait_loop_ready (self : HX711) (ts timeout : Nat) :
    ∀ (j fuel : Nat) (hw : Hw), j < fuel →
      hw.dt (hw.dtCount + j) = false →
      (∀ i, i < j → hw.dt (hw.dtCount + i) = true) →
      (∀ i, i ≤ j → (hw.tick (hw.tickCount + i) % 2 ^ 32 + 2 ^ 32 - ts) % 2 ^ 32 < timeout) →
      self.wait_loop ts timeout fuel hw = some (true, afterWait self hw (j + 1) (j + 1)) := by
  intro j
  induction j with
  | zero =>
    intro fuel hw hf hlow _ hel
    obtain ⟨f, rfl⟩ : ∃ f, fuel = f + 1 := ⟨fuel - 1, by omega⟩
    have h0 := hel 0 (le_refl 0)
    simp only [Nat.add_zero] at h0 hlow
    simp only [HX711.wait_loop, HAL_GetTick, HX711.is_ready, HAL_GPIO_ReadPin]
    rw [if_pos h0]
    simp [hlow, afterWait, range_succ_map 0]
  | succ j ih =>
    intro fuel hw hf hlow hhigh hel
    obtain ⟨f, rfl⟩ : ∃ f, fuel = f + 1 := ⟨fuel - 1, by omega⟩
    have h0 := hel 0 (Nat.zero_le _)
    have hd0 := hhigh 0 (Nat.succ_pos _)
    simp only [Nat.add_zero] at h0 hd0
    rw [HX711.wait_loop]
    simp only [HAL_GetTick, HX711.is_ready, HAL_GPIO_ReadPin]
    rw [if_pos h0]
    simp only [hd0, Bool.true_eq_false, beq_self_eq_true, Bool.false_eq_true, if_false]
    rw [ih f _ (by omega)]
    · simp only [afterWait, range_succ_map (j + 1)]
      simp [Nat.add_assoc, Nat.add_comm 1, hd0]
    · simpa [Nat.add_assoc, Nat.add_comm 1] using hlow
    · intro i hi
      simpa [Nat.add_assoc, Nat.add_comm 1] using hhigh (i + 1) (by omega)
    · intro i hi
      simpa [Nat.add_assoc, Nat.add_comm 1] using hel (i + 1) (by omega)

/-- The loop sees the timeout elapsed at its `j`-th test. -/
theorem wait_loop_timeout (self : HX711) (ts timeout : Nat) :
    ∀ (j fuel : Nat) (hw : Hw), j < fuel →
      timeout ≤ (hw.tick (hw.tickCount + j) % 2 ^ 32 + 2 ^ 32 - ts) % 2 ^ 32 →
      (∀ i, i < j → hw.dt (hw.dtCount + i) = true) →
      (∀ i, i < j → (hw.tick (hw.tickCount + i) % 2 ^ 32 + 2 ^ 32 - ts) % 2 ^ 32 < timeout) →
      self.wait_loop ts timeout fuel hw = some (false, afterWait self hw j (j + 1)) := by
  intro j
  induction j with
  | zero =>
    intro fuel hw hf hto _ _
    obtain ⟨f, rfl⟩ : ∃ f, fuel = f + 1 := ⟨fuel - 1, by omega⟩
    simp only [Nat.add_zero] at hto
    simp only [HX711.wait_loop, HAL_GetTick, HX711.is_ready, HAL_GPIO_ReadPin]
    rw [if_neg (Nat.not_lt.mpr hto)]
    simp [afterWait]
  | succ j ih =>
    intro fuel hw hf hto hhigh hel
    obtain ⟨f, rfl⟩ : ∃ f, fuel = f + 1 := ⟨fuel - 1, by omega⟩
    have h0 := hel 0 (Nat.succ_pos _)
    have hd0 := hhigh 0 (Nat.succ_pos _)
    simp only [Nat.add_zero] at h0 hd0
    rw [HX711.wait_loop]
    simp only [HAL_GetTick, HX711.is_ready, HAL_GPIO_ReadPin]
    rw [if_pos h0]
    simp only [hd0, Bool.true_eq_false, beq_self_eq_true, Bool.false_eq_true, if_false]
    rw [ih f _ (by omega)]
    · simp only [afterWait, range_succ_map j]
      simp [Nat.add_assoc, Nat.add_comm 1, hd0]
    · simpa [Nat.add_assoc, Nat.add_comm 1] using hto
    · intro i hi
      simpa [Nat.add_assoc, Nat.add_comm 1] using hhigh (i + 1) (by omega)
    · intro i hi
      simpa [Nat.add_assoc, Nat.add_comm 1] using hel (i + 1) (by omega)

/-- A wait that finds the data line low at poll `j` returns `true`. -/
theorem wait_ready_timeout_ready (self : HX711) (hw : Hw) (timeout fuel j : Nat)
    (h : ReadyAt hw timeout fuel j) :
    self.wait_ready_timeout fuel timeout hw = some (true, afterWait self hw (j + 1) (j + 2)) := by
  obtain ⟨hj, hlow, hhigh, hel⟩ := h
  unfold HX711.wait_ready_timeout
  simp only [HAL_GetTick]
  have key := wait_loop_ready self (hw.tick hw.tickCount % 2 ^ 32) timeout j fuel
    { hw with tickCount := hw.tickCount + 1 } hj hlow hhigh (by
      intro i hi
      have := hel i hi
      simpa [elapsed, Nat.add_assoc] using this)
  rw [key]
  simp only [afterWait, Nat.add_assoc, Option.some.injEq, Prod.mk.injEq, true_and, Hw.mk.injEq,
    and_true]
  omega

/-- A wait whose timeout elapses at test `j` returns `false`. -/
theorem wait_ready_timeout_timeout (self : HX711) (hw : Hw) (timeout fuel j : Nat)
    (h : TimesOutAt hw timeout fuel j) :
    self.wait_ready_timeout fuel timeout hw = some (false, afterWait self hw j (j + 2)) := by
  obtain ⟨hj, hto, hhigh, hel⟩ := h
  unfold HX711.wait_ready_timeout
  simp only [HAL_GetTick]
  have key := wait_loop_timeout self (hw.tick hw.tickCount % 2 ^ 32) timeout j fuel
    { hw with tickCount := hw.tickCount + 1 } hj (by simpa [elapsed, Nat.add_assoc] using hto)
    hhigh (by
      intro i hi
      have := hel i hi
      simpa [elapsed, Nat.add_assoc] using this)
  rw [key]
  simp only [afterWait, Nat.add_assoc, Option.some.injEq, Prod.mk.injEq, true_and, Hw.mk.injEq,
    and_true]
  omega

/-- A wait that ends within the fuel either finds the line low or times out. -/
theorem WaitEnds.cases {hw : Hw} {timeout fuel : Nat} (h : WaitEnds hw timeout fuel) :
    (∃ j, ReadyAt hw timeout fuel j) ∨ (∃ j, TimesOutAt hw timeout fuel j) := by
  classical
  have hex : ∃ j, timeout ≤ elapsed hw j ∨ hw.dt (hw.dtCount + j) = false := by
    obtain ⟨j, _, hj⟩ := h
    exact ⟨j, hj⟩
  have hmin : ∀ i, i < Nat.find hex → elapsed hw i < timeout ∧ hw.dt (hw.dtCount + i) = true := by
    intro i hi
    have := Nat.find_min hex hi
    simp only [not_or, Nat.not_le, Bool.not_eq_false] at this
    exact this
  have hlt : Nat.find hex < fuel := by
    obtain ⟨j, hj, hp⟩ := h
    exact lt_of_le_of_lt (Nat.find_min' hex hp) hj
  by_cases hto : timeout ≤ elapsed hw (Nat.find hex)
  · right
    exact ⟨Nat.find hex, hlt, hto, fun i hi => (hmin i hi).2, fun i hi => (hmin i hi).1⟩
  · left
    have hlow : hw.dt (hw.dtCount + Nat.find hex) = false := by
      rcases Nat.find_spec hex with h1 | h1
      · exact absurd h1 hto
      · exact h1
    refine ⟨Nat.find hex, hlt, hlow, fun i hi => (hmin i hi).2, ?_⟩
    intro i hi
    rcases Nat.lt_or_eq_of_le hi with h1 | h1
    · exact (hmin i h1).1
    · rw [h1]; exact Nat.not_le.mp hto


/-! ## The transfer -/

theorem dataPulses_succ (self : HX711) (dt : Nat → Bool) (c n : Nat) :
    dataPulses self dt c (n + 1) =
      [Event.write self.SCK_PORT self.SCK_PIN true,
       Event.sample self.DT_PORT self.DT_PIN (dt c),
       Event.write self.SCK_PORT self.SCK_PIN false] ++ dataPulses self dt (c + 1) n := by
  unfold dataPulses
  rw [range_succ_flatMap]
  simp [Nat.add_assoc, Nat.add_comm 1]

theorem gainPulses_succ (self : HX711) (g : Nat) :
    gainPulses self (g + 1) =
      [Event.write self.SCK_PORT self.SCK_PIN true,
       Event.write self.SCK_PORT self.SCK_PIN false] ++ gainPulses self g := by
  simp [gainPulses, List.replicate_succ]

/-- Hardware state after the data loop. -/
theorem read_bits_snd (self : HX711) :
    ∀ (n buffer : Nat) (hw : Hw),
      (self.read_bits n buffer hw).2 =
        { hw with dtCount := hw.dtCount + n
                  trace := hw.trace ++ dataPulses self hw.dt hw.dtCount n } := by
  intro n
  induction n with
  | zero => intro buffer hw; simp [HX711.read_bits, dataPulses]
  | succ n ih =>
    intro buffer hw
    rw [HX711.read_bits]
    simp only [ih, dataPulses_succ, HAL_GPIO_WritePin, HAL_GPIO_ReadPin]
    simp [Nat.add_assoc, Nat.add_comm 1]

/-- Hardware state after the gain loop. -/
theorem gain_pulses_eq (self : HX711) :
    ∀ (g : Nat) (hw : Hw),
      self.gain_pulses g hw = { hw with trace := hw.trace ++ gainPulses self g } := by
  intro g
  induction g with
  | zero => intro hw; simp [HX711.gain_pulses, gainPulses]
  | succ g ih =>
    intro hw
    rw [HX711.gain_pulses]
    simp only [ih, gainPulses_succ, HAL_GPIO_WritePin]
    simp

/-- The accumulator after the data loop holds the bits shifted in, most significant first. -/
theorem read_bits_fst (self : HX711) :
    ∀ (n buffer v : Nat) (hw : Hw), v < 2 ^ n → buffer * 2 ^ n + v < 2 ^ 32 →
      (∀ i, i < n → hw.dt (hw.dtCount + i) = v.testBit (n - 1 - i)) →
      (self.read_bits n buffer hw).1 = buffer * 2 ^ n + v := by
  intro n
  induction n with
  | zero =>
    intro buffer v hw hv _ _
    simp at hv
    simp [HX711.read_bits, hv]
  | succ n ih =>
    intro buffer v hw hv hb hbits
    have hP : 0 < 2 ^ n := Nat.two_pow_pos n
    have h0 := hbits 0 (Nat.succ_pos _)
    simp only [Nat.add_zero, Nat.add_sub_cancel, Nat.sub_zero] at h0
    have hdm := Nat.div_add_mod v (2 ^ n)
    have hr : v % 2 ^ n < 2 ^ n := Nat.mod_lt _ hP
    have hq : v / 2 ^ n < 2 := by
      rw [Nat.div_lt_iff_lt_mul hP]
      rw [pow_succ] at hv
      omega
    rw [pow_succ] at hb
    have hbP : buffer * (2 ^ n * 2) = (buffer * 2) * 2 ^ n := by ring
    rw [hbP] at hb
    have hbuf : buffer * 2 < 2 ^ 32 := by
      have : buffer * 2 ≤ (buffer * 2) * 2 ^ n := Nat.le_mul_of_pos_right _ hP
      omega
    rw [HX711.read_bits]
    simp only [HAL_GPIO_WritePin, HAL_GPIO_ReadPin]
    have hrest : ∀ i, i < n → hw.dt (hw.dtCount + 1 + i) = (v % 2 ^ n).testBit (n - 1 - i) := by
      intro i hi
      have := hbits (i + 1) (by omega)
      rw [Nat.testBit_mod_two_pow]
      have hlt : n - 1 - i < n := by omega
      simp only [hlt, decide_True, Bool.true_and]
      rw [show hw.dtCount + 1 + i = hw.dtCount + (i + 1) by omega, this]
      congr 1
      omega
    rw [Nat.testBit_to_div_mod] at h0
    rcases Nat.lt_or_ge (v / 2 ^ n) 1 with hq0 | hq1
    · have hq0 : v / 2 ^ n = 0 := Nat.lt_one_iff.mp hq0
      rw [hq0] at h0 hdm
      simp only [Nat.mul_zero, Nat.zero_add] at hdm
      simp only [h0, Nat.zero_mod, Nat.zero_ne_one, decide_False, Bool.false_eq_true, if_false]
      rw [Nat.mod_eq_of_lt hbuf]
      rw [ih (buffer * 2) (v % 2 ^ n) _ hr (by omega) hrest]
      rw [pow_succ]
      rw [hbP]
      omega
    · have hq1 : v / 2 ^ n = 1 := Nat.le_antisymm (Nat.lt_succ_iff.mp hq) hq1
      rw [hq1] at h0 hdm
      simp only [Nat.mul_one] at hdm
      simp only [h0, Nat.one_mod, decide_True, if_true]
      have hlt : buffer * 2 + 1 < 2 ^ 32 := by
        have : (buffer * 2 + 1) * 2 ^ n = (buffer * 2) * 2 ^ n + 2 ^ n := by ring
        have : buffer * 2 + 1 ≤ (buffer * 2 + 1) * 2 ^ n := Nat.le_mul_of_pos_right _ hP
        omega
      rw [Nat.mod_eq_of_lt hbuf, Nat.mod_eq_of_lt hlt]
      rw [ih (buffer * 2 + 1) (v % 2 ^ n) _ hr (by
        have : (buffer * 2 + 1) * 2 ^ n = (buffer * 2) * 2 ^ n + 2 ^ n := by ring
        omega) hrest]
      rw [pow_succ]
      rw [hbP]
      have : (buffer * 2 + 1) * 2 ^ n = (buffer * 2) * 2 ^ n + 2 ^ n := by ring
      omega


/-- The sign-extension step of `read` on a 24-bit accumulator. -/
theorem decode_eq (v : Nat) (hv : v < 2 ^ 24) :
    toInt32 (if v &&& 0x800000 ≠ 0 then (0xFF <<< 24 ||| v) % 2 ^ 32 else v) = signExtend24 v := by
  have hand : v &&& 0x800000 = (v.testBit 23).toNat * 2 ^ 23 := Nat.and_two_pow v 23
  have hor : 0xFF <<< 24 ||| v = 2 ^ 24 * 255 + v := (Nat.mul_add_lt_is_or hv 255).symm
  have htb : v.testBit 23 = decide (v / 2 ^ 23 % 2 = 1) := Nat.testBit_to_div_mod
  rcases Nat.lt_or_ge v (2 ^ 23) with h | h
  · have h1 : v / 2 ^ 23 % 2 = 0 := by omega
    rw [h1] at htb
    have hin : (if v &&& 0x800000 ≠ 0 then (0xFF <<< 24 ||| v) % 2 ^ 32 else v) = v := by
      rw [hand, htb]
      simp
    rw [hin]
    unfold signExtend24 toInt32
    have h2 : v % 2 ^ 32 = v := Nat.mod_eq_of_lt (by omega)
    rw [h2, if_pos (by omega), if_pos h]
  · have h1 : v / 2 ^ 23 % 2 = 1 := by omega
    rw [h1] at htb
    have hin : (if v &&& 0x800000 ≠ 0 then (0xFF <<< 24 ||| v) % 2 ^ 32 else v)
        = 2 ^ 24 * 255 + v := by
      rw [hand, htb, hor]
      simp only [decide_True, Bool.toNat_true, Nat.one_mul, ne_eq]
      rw [if_pos (by norm_num)]
      omega
    rw [hin]
    unfold signExtend24 toInt32
    have h2 : (2 ^ 24 * 255 + v) % 2 ^ 32 = 2 ^ 24 * 255 + v := by omega
    rw [h2, if_neg (by omega), if_neg (by omega)]
    push_cast
    omega

/-- Hardware state after the transfer. -/
theorem transfer_snd (self : HX711) (hw : Hw) :
    (self.transfer hw).2 =
      { hw with
        dtCount := hw.dtCount + 24
        trace := hw.trace ++
          ([Event.write self.SCK_PORT self.SCK_PIN false, Event.irqMask true] ++
            dataPulses self hw.dt hw.dtCount 24 ++ gainPulses self self.GAIN ++
            [Event.irqMask hw.primask]) } := by
  unfold HX711.transfer
  simp only [read_bits_snd, gain_pulses_eq, set_PRIMASK, get_PRIMASK, disable_irq,
    HAL_GPIO_WritePin]
  have hpm : decide ((if hw.primask = true then 1 else 0) % 2 = 1) = hw.primask := by
    cases hw.primask <;> rfl
  rw [hpm]
  simp

/-- Value returned by the transfer when the data line presents the pattern `v`. -/
theorem transfer_fst (self : HX711) (hw : Hw) (v : Nat) (hv : v < 2 ^ 24)
    (hbits : ∀ i, i < 24 → hw.dt (hw.dtCount + i) = v.testBit (23 - i)) :
    (self.transfer hw).1 = signExtend24 v := by
  unfold HX711.transfer
  have h := read_bits_fst self 24 0 v
    (disable_irq (HAL_GPIO_WritePin self.SCK_PORT self.SCK_PIN false hw)) hv (by omega) hbits
  simp only [Nat.zero_mul, Nat.zero_add] at h
  simp only [h]
  exact decode_eq v hv


/-! ## `read` -/

/-- A read that finds the data line low at poll `j` performs the transfer. -/
theorem read_ready (self : HX711) (hw : Hw) (fuel j : Nat) (h : ReadyAt hw 150 fuel j) :
    self.read fuel hw = some (self.transfer (afterWait self hw (j + 1) (j + 2))) := by
  unfold HX711.read
  rw [wait_ready_timeout_ready self hw 150 fuel j h]

/-- A read whose wait times out at test `j` returns `-1` without touching the clock. -/
theorem read_timeout (self : HX711) (hw : Hw) (fuel j : Nat) (h : TimesOutAt hw 150 fuel j) :
    self.read fuel hw = some (-1, afterWait self hw j (j + 2)) := by
  unfold HX711.read
  rw [wait_ready_timeout_timeout self hw 150 fuel j h]

/-- The accumulator after the data loop is bounded whatever the data line does. -/
theorem read_bits_lt (self : HX711) :
    ∀ (n buffer : Nat) (hw : Hw), (self.read_bits n buffer hw).1 < (buffer + 1) * 2 ^ n := by
  intro n
  induction n with
  | zero => intro buffer hw; simp [HX711.read_bits]
  | succ n ih =>
    intro buffer hw
    rw [HX711.read_bits]
    simp only [HAL_GPIO_WritePin, HAL_GPIO_ReadPin]
    refine lt_of_lt_of_le (ih _ _) ?_
    have hp : (buffer + 1) * 2 ^ (n + 1) = ((buffer + 1) * 2) * 2 ^ n := by ring
    rw [hp]
    apply Nat.mul_le_mul_right
    have h1 : buffer * 2 % 2 ^ 32 ≤ buffer * 2 := Nat.mod_le _ _
    have h2 : (buffer * 2 % 2 ^ 32 + 1) % 2 ^ 32 ≤ buffer * 2 % 2 ^ 32 + 1 := Nat.mod_le _ _
    split <;> omega

theorem signExtend24_range (v : Nat) (hv : v < 2 ^ 24) :
    -8388608 ≤ signExtend24 v ∧ signExtend24 v ≤ 8388607 := by
  unfold signExtend24
  split <;> omega

/-- The transfer returns a value of the 24-bit signed range whatever the data line does. -/
theorem transfer_range (self : HX711) (hw : Hw) :
    -8388608 ≤ (self.transfer hw).1 ∧ (self.transfer hw).1 ≤ 8388607 := by
  have hlt := read_bits_lt self 24 0
    (disable_irq (HAL_GPIO_WritePin self.SCK_PORT self.SCK_PIN false hw))
  simp only [Nat.zero_add, Nat.one_mul] at hlt
  have h := decode_eq _ hlt
  unfold HX711.transfer
  simp only
  rw [h]
  exact signExtend24_range _ hlt

/-- Every value returned by `read` lies in the 24-bit signed range. -/
theorem read_range (self : HX711) (fuel : Nat) (hw hw1 : Hw) (v : Int)
    (h : self.read fuel hw = some (v, hw1)) : -8388608 ≤ v ∧ v ≤ 8388607 := by
  unfold HX711.read at h
  split at h
  · exact absurd h (by simp)
  · simp only [Option.some.injEq, Prod.mk.injEq] at h
    omega
  · simp only [Option.some.injEq] at h
    have := transfer_range self ‹Hw›
    rw [h] at this
    exact this

/-- A read whose wait ends within the fuel returns. -/
theorem read_isSome (self : HX711) (hw : Hw) (fuel : Nat) (h : WaitEnds hw 150 fuel) :
    ∃ v hw1, self.read fuel hw = some (v, hw1) := by
  rcases h.cases with ⟨j, hj⟩ | ⟨j, hj⟩
  · exact ⟨(self.transfer (afterWait self hw (j + 1) (j + 2))).1,
      (self.transfer (afterWait self hw (j + 1) (j + 2))).2, read_ready self hw fuel j hj⟩
  · exact ⟨_, _, read_timeout self hw fuel j hj⟩


/-! ## Decoding of the sample -/

/-- C1: when `read` finds the data line low at poll `j` (so it does not time out) and
the data line then presents the 24 bits of `v`, most significant first, one per
clock pulse, `read` returns the two's-complement value of the pattern: `v` when
`v < 2^23` and `v - 2^24` otherwise. -/
theorem read_returns_sign_extended_pattern (self : HX711) (hw : Hw) (fuel j v : Nat)
    (hready : ReadyAt hw 150 fuel j) (hv : v < 2 ^ 24)
    (hbits : ∀ i, i < 24 → hw.dt (hw.dtCount + (j + 1) + i) = v.testBit (23 - i)) :
    ∃ hw1, self.read fuel hw =
      some ((if v < 2 ^ 23 then (v : Int) else (v : Int) - 2 ^ 24), hw1) := by
  refine ⟨(self.transfer (afterWait self hw (j + 1) (j + 2))).2, ?_⟩
  rw [read_ready self hw fuel j hready]
  have h := transfer_fst self (afterWait self hw (j + 1) (j + 2)) v hv hbits
  unfold signExtend24 at h
  rw [← h]

theorem hwDevice_ready (v : Nat) : ReadyAt (hwDevice v) 150 1 0 := by
  refine ⟨by decide, rfl, ?_, ?_⟩
  · intro i hi; omega
  · intro i _; simp [elapsed, hwDevice]

/-- The pattern `0x800000` is read as `-8388608`. -/
theorem read_returns_sign_extended_pattern_witness :
    ReadyAt (hwDevice 0x800000) 150 1 0 ∧
      ∃ hw1, demoBegun.read 1 (hwDevice 0x800000) = some (-8388608, hw1) :=
  ⟨hwDevice_ready 0x800000,
    read_returns_sign_extended_pattern demoBegun (hwDevice 0x800000) 1 0 0x800000
      (hwDevice_ready 0x800000) (by decide) (by decide)⟩

/-- The pattern `0x7FFFFF` is read as `8388607`. -/
theorem read_max_pattern :
    (demoBegun.read 1 (hwDevice 0x7FFFFF)).map Prod.fst = some 8388607 := by
  decide


/-! ## The timeout value -/

theorem hwAbsent_timeout : TimesOutAt hwAbsent 150 1 0 := by
  refine ⟨by decide, by decide, ?_, ?_⟩
  · intro i hi; omega
  · intro i hi; omega

/-- C2: the value returned on timeout is not distinct from every sample.  Without a
device the wait times out and `read` returns `-1`; with a device that is ready and
shifts out the pattern `0xFFFFFF` the read succeeds and returns `-1` as well. -/
theorem read_timeout_value_collides :
    TimesOutAt hwAbsent 150 1 0 ∧ (demoBegun.read 1 hwAbsent).map Prod.fst = some (-1) ∧
      ReadyAt (hwDevice 0xFFFFFF) 150 1 0 ∧
      (∀ i, i < 24 → (hwDevice 0xFFFFFF).dt (1 + i) = true) ∧
      (demoBegun.read 1 (hwDevice 0xFFFFFF)).map Prod.fst = some (-1) :=
  ⟨hwAbsent_timeout, by decide, hwDevice_ready 0xFFFFFF, by decide, by decide⟩

/-! ## The interrupt mask -/

/-- C5: a `read` whose wait ends (by finding the data line low or by timing out)
returns with the interrupt mask equal to the one it was entered with, whether
interrupts were enabled or already disabled on entry. -/
theorem read_preserves_primask (self : HX711) (hw : Hw) (fuel : Nat)
    (h : WaitEnds hw 150 fuel) :
    ∃ v hw1, self.read fuel hw = some (v, hw1) ∧ hw1.primask = hw.primask := by
  rcases h.cases with ⟨j, hj⟩ | ⟨j, hj⟩
  · refine ⟨(self.transfer (afterWait self hw (j + 1) (j + 2))).1,
      (self.transfer (afterWait self hw (j + 1) (j + 2))).2, read_ready self hw fuel j hj, ?_⟩
    rw [transfer_snd]
    rfl
  · exact ⟨_, _, read_timeout self hw fuel j hj, rfl⟩

/-- The successful path, entered with interrupts enabled. -/
theorem read_preserves_primask_witness :
    WaitEnds (hwDevice 5) 150 1 ∧
      ∃ v hw1, demoBegun.read 1 (hwDevice 5) = some (v, hw1) ∧ hw1.primask = false :=
  ⟨⟨0, by decide, Or.inr rfl⟩,
    read_preserves_primask demoBegun (hwDevice 5) 1 ⟨0, by decide, Or.inr rfl⟩⟩

/-- The timeout path, entered with interrupts disabled. -/
theorem read_timeout_primask :
    (demoBegun.read 1 hwAbsent).map (fun r => r.2.primask) = some true := by
  decide

/-! ## The clock sequence -/

theorem clockWrites_append (self : HX711) (a b : List Event) :
    clockWrites self (a ++ b) = clockWrites self a ++ clockWrites self b := by
  simp [clockWrites, List.filterMap_append]

theorem clockWrites_samples (self : HX711) (f : Nat → Bool) (l : List Nat) :
    clockWrites self (l.map fun i => Event.sample self.DT_PORT self.DT_PIN (f i)) = [] := by
  induction l with
  | nil => rfl
  | cons a l ih =>
    simp only [List.map_cons, clockWrites, List.filterMap_cons] at ih ⊢
    exact ih

theorem clockWrites_dataPulses (self : HX711) (dt : Nat → Bool) :
    ∀ (n c : Nat), clockWrites self (dataPulses self dt c n) =
      (List.replicate n [true, false]).flatten := by
  intro n
  induction n with
  | zero => intro c; rfl
  | succ n ih =>
    intro c
    rw [dataPulses_succ, clockWrites_append, ih, List.replicate_succ, List.flatten_cons]
    simp [clockWrites]

theorem clockWrites_gainPulses (self : HX711) :
    ∀ (g : Nat), clockWrites self (gainPulses self g) =
      (List.replicate g [true, false]).flatten := by
  intro g
  induction g with
  | zero => rfl
  | succ g ih =>
    rw [gainPulses_succ, clockWrites_append, ih, List.replicate_succ, List.flatten_cons]
    simp [clockWrites]

theorem getLast_pulses (l : List Bool) :
    ∀ (n : Nat), (l ++ false :: (List.replicate n [true, false]).flatten).getLast? = some false := by
  intro n
  induction n with
  | zero => simp
  | succ n _ =>
    rw [List.replicate_succ', List.flatten_append]
    have : l ++ false :: ((List.replicate n [true, false]).flatten ++ [[true, false]].flatten)
        = (l ++ false :: ((List.replicate n [true, false]).flatten ++ [true])) ++ [false] := by
      simp
    rw [this, List.getLast?_append]
    rfl

/-- C9: a `read` that finds the data line low at poll `j` performs, after the `j + 1`
polls, exactly: one clock write low, the masking of interrupts, 24 pulses each made of
clock high, one sample of the data line, clock low, then `GAIN` pulses made of clock
high, clock low without any sample, and the restoring of the interrupt mask.  The
clock-pin writes of the call are therefore one low followed by `24 + GAIN`
high-then-low pairs, and the last write is low. -/
theorem read_clock_sequence (self : HX711) (hw : Hw) (fuel j : Nat)
    (h : ReadyAt hw 150 fuel j) :
    ∃ v hw1, self.read fuel hw = some (v, hw1) ∧
      hw1.trace = hw.trace ++
        ((List.range (j + 1)).map fun i =>
          Event.sample self.DT_PORT self.DT_PIN (hw.dt (hw.dtCount + i))) ++
        ([Event.write self.SCK_PORT self.SCK_PIN false, Event.irqMask true] ++
          dataPulses self hw.dt (hw.dtCount + (j + 1)) 24 ++ gainPulses self self.GAIN ++
          [Event.irqMask hw.primask]) ∧
      clockWrites self hw1.trace = clockWrites self hw.trace ++
        false :: (List.replicate (24 + self.GAIN) [true, false]).flatten ∧
      (clockWrites self hw1.trace).getLast? = some false := by
  have htr : (self.transfer (afterWait self hw (j + 1) (j + 2))).2.trace = hw.trace ++
        ((List.range (j + 1)).map fun i =>
          Event.sample self.DT_PORT self.DT_PIN (hw.dt (hw.dtCount + i))) ++
        ([Event.write self.SCK_PORT self.SCK_PIN false, Event.irqMask true] ++
          dataPulses self hw.dt (hw.dtCount + (j + 1)) 24 ++ gainPulses self self.GAIN ++
          [Event.irqMask hw.primask]) := by
    rw [transfer_snd]
    rfl
  have hcw : clockWrites self (self.transfer (afterWait self hw (j + 1) (j + 2))).2.trace =
      clockWrites self hw.trace ++
        false :: (List.replicate (24 + self.GAIN) [true, false]).flatten := by
    rw [htr]
    simp only [clockWrites_append, clockWrites_samples, clockWrites_dataPulses,
      clockWrites_gainPulses, List.append_nil]
    rw [List.replicate_add, List.flatten_append]
    simp [clockWrites]
  refine ⟨(self.transfer (afterWait self hw (j + 1) (j + 2))).1,
    (self.transfer (afterWait self hw (j + 1) (j + 2))).2, read_ready self hw fuel j h, htr,
    hcw, ?_⟩
  rw [hcw]
  exact getLast_pulses _ _

/-- The clock sequence of a read with pulse count 1 stored in `GAIN`. -/
theorem read_clock_sequence_witness :
    ReadyAt (hwDevice 5) 150 1 0 ∧
      ∃ v hw1, demoBegun.read 1 (hwDevice 5) = some (v, hw1) ∧
      hw1.trace = (hwDevice 5).trace ++
        ((List.range (0 + 1)).map fun i =>
          Event.sample demoBegun.DT_PORT demoBegun.DT_PIN ((hwDevice 5).dt ((hwDevice 5).dtCount + i))) ++
        ([Event.write demoBegun.SCK_PORT demoBegun.SCK_PIN false, Event.irqMask true] ++
          dataPulses demoBegun (hwDevice 5).dt ((hwDevice 5).dtCount + (0 + 1)) 24 ++
          gainPulses demoBegun demoBegun.GAIN ++ [Event.irqMask (hwDevice 5).primask]) ∧
      clockWrites demoBegun hw1.trace = clockWrites demoBegun (hwDevice 5).trace ++
        false :: (List.replicate (24 + demoBegun.GAIN) [true, false]).flatten ∧
      (clockWrites demoBegun hw1.trace).getLast? = some false :=
  ⟨hwDevice_ready 5, read_clock_sequence demoBegun (hwDevice 5) 1 0 (hwDevice_ready 5)⟩


/-! ## The gain selector -/

/-- C3: `set_gain(x)` on an 8-bit `x`, with a wait that ends (the device becomes ready
or the timeout elapses), returns with `GAIN` equal to 1 for `x = 128`, 3 for `x = 64`,
2 for `x = 32` and unchanged for any other `x`; the other fields are unchanged. -/
theorem set_gain_selector (self : HX711) (hw : Hw) (fuel x : Nat) (_hx : x < 256)
    (h : WaitEnds hw 150 fuel) :
    ∃ self1 hw1, self.set_gain fuel x hw = some (self1, hw1) ∧
      self1 = { self with GAIN :=
        if x = 128 then 1 else if x = 64 then 3 else if x = 32 then 2 else self.GAIN } := by
  have key : ∀ s : HX711, ∃ hw1,
      (match s.read fuel (HAL_GPIO_WritePin s.SCK_PORT s.SCK_PIN false hw) with
        | none => none
        | some (_, hw2) => some (s, hw2)) = some (s, hw1) := by
    intro s
    obtain ⟨v, hw1, hr⟩ := read_isSome s (HAL_GPIO_WritePin s.SCK_PORT s.SCK_PIN false hw) fuel h
    exact ⟨hw1, by rw [hr]⟩
  unfold HX711.set_gain
  by_cases h1 : x = 128
  · obtain ⟨hw1, hk⟩ := key { self with GAIN := 1 }
    exact ⟨_, hw1, by simpa [h1] using hk, by simp [h1]⟩
  by_cases h2 : x = 64
  · obtain ⟨hw1, hk⟩ := key { self with GAIN := 3 }
    exact ⟨_, hw1, by simpa [h2] using hk, by simp [h2]⟩
  by_cases h3 : x = 32
  · obtain ⟨hw1, hk⟩ := key { self with GAIN := 2 }
    exact ⟨_, hw1, by simpa [h3] using hk, by simp [h3]⟩
  · obtain ⟨hw1, hk⟩ := key self
    exact ⟨_, hw1, by simpa [h1, h2, h3] using hk, by simp [h1, h2, h3]⟩

/-- The call `set_gain(64)` on a timed-out hardware. -/
theorem set_gain_selector_witness :
    64 < 256 ∧ WaitEnds hwAbsent 150 1 ∧
      ∃ self1 hw1, demoBegun.set_gain 1 64 hwAbsent = some (self1, hw1) ∧
        self1 = { demoBegun with GAIN :=
          if 64 = 128 then 1 else if 64 = 64 then 3 else if 64 = 32 then 2
          else demoBegun.GAIN } :=
  ⟨by decide, ⟨0, by decide, Or.inl (by decide)⟩,
    set_gain_selector demoBegun hwAbsent 1 64 (by decide) ⟨0, by decide, Or.inl (by decide)⟩⟩


/-- What `set_gain` stores, whenever it returns. -/
theorem set_gain_eq (self self1 : HX711) (hw hw1 : Hw) (fuel x : Nat)
    (h : self.set_gain fuel x hw = some (self1, hw1)) :
    self1 = { self with GAIN :=
      if x = 128 then 1 else if x = 64 then 3 else if x = 32 then 2 else self.GAIN } := by
  unfold HX711.set_gain at h
  simp only at h
  split at h
  · exact absurd h (by simp)
  · simp only [Option.some.injEq, Prod.mk.injEq] at h
    rw [← h.1]
    split
    · rfl
    · split
      · rfl
      · split <;> rfl

theorem step_valid (fuel : Nat) (op : Op) (st st1 : HX711 × Hw)
    (h : HX711.step fuel op st = some st1) (hv : ValidGain st.1.GAIN) :
    ValidGain st1.1.GAIN := by
  unfold ValidGain at hv ⊢
  cases op with
  | begin =>
    obtain ⟨s1, hw1⟩ := st1
    have := set_gain_eq _ _ _ _ _ _ h
    simp only [this]
    split
    · omega
    · split
      · omega
      · split
        · omega
        · exact hv
  | set_gain x =>
    obtain ⟨s1, hw1⟩ := st1
    have := set_gain_eq _ _ _ _ _ _ h
    simp only [this]
    split
    · omega
    · split
      · omega
      · split
        · omega
        · exact hv
  | read =>
    simp only [HX711.step, Option.map_eq_some'] at h
    obtain ⟨r, _, hr⟩ := h
    rw [← hr]
    exact hv
  | read_average n =>
    simp only [HX711.step, Option.map_eq_some'] at h
    obtain ⟨r, _, hr⟩ := h
    rw [← hr]
    exact hv

theorem run_valid (fuel : Nat) :
    ∀ (ops : List Op) (st st1 : HX711 × Hw), HX711.run fuel ops st = some st1 →
      ValidGain st.1.GAIN → ValidGain st1.1.GAIN := by
  intro ops
  induction ops with
  | nil =>
    intro st st1 h hv
    simp only [HX711.run, Option.some.injEq] at h
    rw [← h]
    exact hv
  | cons op ops ih =>
    intro st st1 h hv
    rw [HX711.run] at h
    split at h
    · exact absurd h (by simp)
    · rename_i st2 hstep
      exact ih st2 st1 h (step_valid fuel op st st2 hstep hv)

/-- After `begin` on an instance whose `GAIN` holds 128, 64 or 32 the selector is valid,
and it stays valid under any further calls. -/
theorem run_begin_valid (fuel : Nat) (ops : List Op) (self : HX711) (hw : Hw)
    (st1 : HX711 × Hw) (hg : self.GAIN = 128 ∨ self.GAIN = 64 ∨ self.GAIN = 32)
    (h : HX711.run fuel (Op.begin :: ops) (self, hw) = some st1) : ValidGain st1.1.GAIN := by
  rw [HX711.run] at h
  split at h
  · exact absurd h (by simp)
  · rename_i st2 hstep
    refine run_valid fuel ops st2 st1 h ?_
    obtain ⟨s2, hw2⟩ := st2
    have := set_gain_eq _ _ _ _ _ _ hstep
    simp only [this]
    unfold ValidGain
    rcases hg with hg | hg | hg <;> simp [hg]


/-- C8, as stated, fails: right after construction with gain 128 the stored selector
is 128, and after construction with gain 5 followed by `begin()` it is 5. -/
theorem gain_selector_invalid_states :
    (HX711.run 1 [] (HX711.ofFields 0x40020000 0x40020400 0x0001 0x0002 128, hwDevice 5)).map
        (fun st => st.1.GAIN) = some 128 ∧
      (HX711.run 1 [Op.begin]
          (HX711.ofFields 0x40020000 0x40020400 0x0001 0x0002 5, hwDevice 5)).map
        (fun st => st.1.GAIN) = some 5 ∧
      (HX711.run 1 [Op.begin]
          (HX711.ofParam ⟨0x40020000, 0x40020400, 0x0001, 0x0002, 0⟩, hwDevice 5)).map
        (fun st => st.1.GAIN) = some 0 := by
  decide

/-- C8, amended: when either constructor is given gain 128, 64 or 32, in every state
reached by `begin()` followed by any sequence of `begin()`, `set_gain(x)`, `read()`
and `read_average(n)` calls the stored selector is 1, 2 or 3; the same holds, from
any instance, after `set_gain(g)` with such a `g` followed by any sequence of calls. -/
theorem gain_selector_valid_after_begin (g fuel : Nat) (ops : List Op) (hw : Hw)
    (hg : g = 128 ∨ g = 64 ∨ g = 32) :
    (∀ dtPort sckPort dtPin sckPin s hw1,
        HX711.run fuel (Op.begin :: ops) (HX711.ofFields dtPort sckPort dtPin sckPin g, hw)
          = some (s, hw1) → s.GAIN = 1 ∨ s.GAIN = 2 ∨ s.GAIN = 3) ∧
      (∀ p s hw1, p.gain = g →
        HX711.run fuel (Op.begin :: ops) (HX711.ofParam p, hw) = some (s, hw1) →
          s.GAIN = 1 ∨ s.GAIN = 2 ∨ s.GAIN = 3) ∧
      (∀ self s hw1,
        HX711.run fuel (Op.set_gain g :: ops) (self, hw) = some (s, hw1) →
          s.GAIN = 1 ∨ s.GAIN = 2 ∨ s.GAIN = 3) := by
  refine ⟨?_, ?_, ?_⟩
  · intro dtPort sckPort dtPin sckPin s hw1 h
    exact run_begin_valid fuel ops _ hw (s, hw1) hg h
  · intro p s hw1 hp h
    exact run_begin_valid fuel ops _ hw (s, hw1) (by rw [← hp] at hg; exact hg) h
  · intro self s hw1 h
    rw [HX711.run] at h
    split at h
    · exact absurd h (by simp)
    · rename_i st2 hstep
      refine run_valid fuel ops st2 (s, hw1) h ?_
      obtain ⟨s2, hw2⟩ := st2
      have := set_gain_eq _ _ _ _ _ _ hstep
      simp only [this]
      unfold ValidGain
      rcases hg with hg | hg | hg <;> simp [hg]

/-- A run of three calls on a ready device ends with a valid selector. -/
theorem gain_selector_valid_after_begin_witness :
    (128 = 128 ∨ 128 = 64 ∨ 128 = 32) ∧
      ∃ s hw1,
        HX711.run 1 [Op.begin, Op.set_gain 7, Op.read_average 2]
          (HX711.ofFields 0x40020000 0x40020400 0x0001 0x0002 128, hwDevice 5) = some (s, hw1) ∧
        (s.GAIN = 1 ∨ s.GAIN = 2 ∨ s.GAIN = 3) := by
  have hs : (HX711.run 1 [Op.begin, Op.set_gain 7, Op.read_average 2] (HX711.ofFields 0x40020000 0x40020400 0x0001 0x0002 128, hwDevice 5)).isSome
      = true := by decide
  obtain ⟨⟨s, hw1⟩, h⟩ := Option.isSome_iff_exists.mp hs
  exact ⟨Or.inl rfl, s, hw1, h,
    (gain_selector_valid_after_begin 128 1 [Op.set_gain 7, Op.read_average 2] (hwDevice 5) (Or.inl rfl)).1 _ _ _ _ s hw1 h⟩


/-! ## `read_average` -/

/-- Storing a value of the `int32_t` range into an `int32_t` does not change it. -/
theorem wrapInt32_of_range (z : Int) (h1 : -2147483648 ≤ z) (h2 : z ≤ 2147483647) :
    wrapInt32 z = z := by
  unfold wrapInt32 toInt32
  have hnn : 0 ≤ z % 2 ^ 32 := Int.emod_nonneg _ (by norm_num)
  have hu : ((z % 2 ^ 32).toNat : Int) = z % 2 ^ 32 := Int.toNat_of_nonneg hnn
  generalize (z % 2 ^ 32).toNat = u at hu ⊢
  split <;> omega

/-- Every value returned by consecutive reads lies in the 24-bit signed range. -/
theorem readTimes_range (self : HX711) (fuel : Nat) :
    ∀ (n : Nat) (hw hw1 : Hw) (vs : List Int), self.readTimes fuel n hw = some (vs, hw1) →
      vs.length = n ∧ ∀ v, v ∈ vs → -8388608 ≤ v ∧ v ≤ 8388607 := by
  intro n
  induction n with
  | zero =>
    intro hw hw1 vs h
    simp only [HX711.readTimes, Option.some.injEq, Prod.mk.injEq] at h
    rw [← h.1]
    simp
  | succ n ih =>
    intro hw hw1 vs h
    rw [HX711.readTimes] at h
    split at h
    · exact absurd h (by simp)
    · rename_i v hw2 hr
      split at h
      · exact absurd h (by simp)
      · rename_i vs2 hw3 hrest
        simp only [Option.some.injEq, Prod.mk.injEq] at h
        obtain ⟨hlen, hrange⟩ := ih hw2 hw3 vs2 hrest
        rw [← h.1]
        refine ⟨by simp [hlen], ?_⟩
        intro w hw
        rcases List.mem_cons.mp hw with hw | hw
        · rw [hw]; exact read_range self fuel _ _ v hr
        · exact hrange w hw

/-- The accumulator of the summation loop holds the exact sum of the values read. -/
theorem sum_loop_eq (self : HX711) (fuel : Nat) :
    ∀ (n : Nat) (sum : Int) (hw : Hw),
      -2147483648 ≤ sum - 8388608 * (n : Int) → sum + 8388608 * (n : Int) ≤ 2147483647 →
      self.sum_loop fuel n sum hw =
        (self.readTimes fuel n hw).map fun r => (sum + r.1.sum, r.2) := by
  intro n
  induction n with
  | zero =>
    intro sum hw _ _
    simp [HX711.sum_loop, HX711.readTimes]
  | succ n ih =>
    intro sum hw h1 h2
    rw [HX711.sum_loop, HX711.readTimes]
    cases hr : self.read fuel hw with
    | none => rfl
    | some r =>
      obtain ⟨v, hw1⟩ := r
      have hv := read_range self fuel hw hw1 v hr
      push_cast at h1 h2
      simp only
      rw [wrapInt32_of_range (sum + v) (by omega) (by omega)]
      rw [ih (sum + v) hw1 (by omega) (by omega)]
      cases self.readTimes fuel n hw1 with
      | none => rfl
      | some q => simp [List.sum_cons, Int.add_assoc]

/-- A prefix of consecutive reads is a shorter run of consecutive reads. -/
theorem readTimes_take (self : HX711) (fuel : Nat) :
    ∀ (n : Nat) (hw hw1 : Hw) (vs : List Int), self.readTimes fuel n hw = some (vs, hw1) →
      ∀ k, k ≤ n → ∃ hwk, self.readTimes fuel k hw = some (vs.take k, hwk) := by
  intro n
  induction n with
  | zero =>
    intro hw hw1 vs h k hk
    have hk0 : k = 0 := by omega
    subst hk0
    exact ⟨hw, by simp [HX711.readTimes]⟩
  | succ n ih =>
    intro hw hw1 vs h k hk
    cases k with
    | zero => exact ⟨hw, by simp [HX711.readTimes]⟩
    | succ k =>
      rw [HX711.readTimes] at h ⊢
      split at h
      · exact absurd h (by simp)
      · rename_i v hw2 hr
        split at h
        · exact absurd h (by simp)
        · rename_i vs2 hw3 hrest
          simp only [Option.some.injEq, Prod.mk.injEq] at h
          obtain ⟨hwk, hkk⟩ := ih hw2 hw3 vs2 hrest k (by omega)
          refine ⟨hwk, ?_⟩
          rw [hkk, ← h.1]
          rfl

/-- The sum of at most `n` values of the 24-bit signed range. -/
theorem sum_bound (vs : List Int) (h : ∀ v, v ∈ vs → -8388608 ≤ v ∧ v ≤ 8388607) :
    -8388608 * (vs.length : Int) ≤ vs.sum ∧ vs.sum ≤ 8388608 * (vs.length : Int) := by
  induction vs with
  | nil => simp
  | cons a l ih =>
    have ha := h a (List.mem_cons_self a l)
    have hl := ih fun v hv => h v (List.mem_cons_of_mem a hv)
    simp only [List.sum_cons, List.length_cons]
    push_cast
    omega

/-- Successful consecutive reads are consecutive reads. -/
theorem SuccessfulReads.readTimes (self : HX711) (fuel : Nat) :
    ∀ (vs : List Int) (hw : Hw), SuccessfulReads self fuel vs hw →
      ∃ hw1, self.readTimes fuel vs.length hw = some (vs, hw1) := by
  intro vs
  induction vs with
  | nil => intro hw _; exact ⟨hw, rfl⟩
  | cons v vs ih =>
    intro hw h
    obtain ⟨j, hw2, _, hr, hrest⟩ := h
    obtain ⟨hw1, h1⟩ := ih hw2 hrest
    refine ⟨hw1, ?_⟩
    rw [List.length_cons, HX711.readTimes, hr]
    simp only
    rw [h1]


/-- C4: for `1 ≤ n ≤ 255`, when `n` consecutive reads each find the device ready and
return `v1..vn`, `read_average(n)` performs exactly these `n` reads (it ends in the
hardware state they end in) and returns the sum of `v1..vn` divided by `n`, truncated
toward zero. -/
theorem read_average_of_successful_reads (self : HX711) (hw : Hw) (fuel n : Nat)
    (vs : List Int) (hn1 : 1 ≤ n) (hn : n ≤ 255) (hlen : vs.length = n)
    (hs : SuccessfulReads self fuel vs hw) :
    ∃ hw1, self.readTimes fuel n hw = some (vs, hw1) ∧
      self.read_average fuel n hw = some (Int.tdiv vs.sum n, hw1) := by
  obtain ⟨hw1, h1⟩ := SuccessfulReads.readTimes self fuel vs hw hs
  rw [hlen] at h1
  refine ⟨hw1, h1, ?_⟩
  unfold HX711.read_average
  rw [sum_loop_eq self fuel n 0 hw (by omega) (by omega), h1]
  simp only [Option.map_some', Int.zero_add]
  rw [if_neg (by omega)]

theorem hwDevice_second_ready :
    ReadyAt (demoBegun.transfer (afterWait demoBegun (hwDevice 5) 1 2)).2 150 1 0 := by
  unfold ReadyAt
  decide

/-- Two reads of the pattern 5 average to 5. -/
theorem read_average_of_successful_reads_witness :
    1 ≤ 2 ∧ 2 ≤ 255 ∧ [(5 : Int), 5].length = 2 ∧
      SuccessfulReads demoBegun 1 [5, 5] (hwDevice 5) ∧
      ∃ hw1, demoBegun.readTimes 1 2 (hwDevice 5) = some ([5, 5], hw1) ∧
        demoBegun.read_average 1 2 (hwDevice 5) = some (Int.tdiv ([5, 5] : List Int).sum 2, hw1) := by
  have hs : SuccessfulReads demoBegun 1 [5, 5] (hwDevice 5) := by
    refine ⟨0, (demoBegun.transfer (afterWait demoBegun (hwDevice 5) 1 2)).2,
      hwDevice_ready 5, ?_, 0, (demoBegun.transfer (afterWait demoBegun
        (demoBegun.transfer (afterWait demoBegun (hwDevice 5) 1 2)).2 1 2)).2,
      hwDevice_second_ready, ?_, trivial⟩
    · rw [read_ready demoBegun (hwDevice 5) 1 0 (hwDevice_ready 5)]
      exact congrArg some (Prod.ext (by decide) rfl)
    · rw [read_ready demoBegun _ 1 0 hwDevice_second_ready]
      exact congrArg some (Prod.ext (by decide) rfl)
  exact ⟨by decide, by decide, rfl, hs,
    read_average_of_successful_reads demoBegun (hwDevice 5) 1 2 [5, 5] (by decide) (by decide)
      rfl hs⟩

/-- C10: for `1 ≤ n ≤ 255` and any behaviour of the data line and of the tick
counter, `read_average(n)` returns the exact sum of the `n` values returned by `read`
divided by `n`, truncated toward zero; each of these values lies in
`[-8388608, 8388607]`, every running sum lies in `[-2139095040, 2139095040]`, and the
32-bit accumulator holds exactly that running sum after each iteration. -/
theorem read_average_no_overflow (self : HX711) (hw : Hw) (fuel n : Nat)
    (hn1 : 1 ≤ n) (hn : n ≤ 255) :
    self.read_average fuel n hw =
        (self.readTimes fuel n hw).map (fun r => (Int.tdiv r.1.sum n, r.2)) ∧
      ∀ vs hw1, self.readTimes fuel n hw = some (vs, hw1) →
        (∀ v, v ∈ vs → -8388608 ≤ v ∧ v ≤ 8388607) ∧
        ∀ k, k ≤ n →
          -2139095040 ≤ (vs.take k).sum ∧ (vs.take k).sum ≤ 2139095040 ∧
          (self.sum_loop fuel k 0 hw).map Prod.fst = some (vs.take k).sum := by
  constructor
  · unfold HX711.read_average
    rw [sum_loop_eq self fuel n 0 hw (by omega) (by omega)]
    cases self.readTimes fuel n hw with
    | none => rfl
    | some r =>
      simp only [Option.map_some', Int.zero_add]
      rw [if_neg (by omega)]
  · intro vs hw1 h
    obtain ⟨hlen, hrange⟩ := readTimes_range self fuel n hw hw1 vs h
    refine ⟨hrange, ?_⟩
    intro k hk
    obtain ⟨hwk, hkk⟩ := readTimes_take self fuel n hw hw1 vs h k hk
    obtain ⟨hlenk, hrangek⟩ := readTimes_range self fuel k hw hwk _ hkk
    have hb := sum_bound (vs.take k) hrangek
    rw [hlenk] at hb
    have hkz : (k : Int) ≤ 255 := by exact_mod_cast le_trans hk hn
    refine ⟨by omega, by omega, ?_⟩
    rw [sum_loop_eq self fuel k 0 hw (by omega) (by omega), hkk]
    simp

/-- Three reads that all time out: the sum is `-3` and the average `-1`. -/
theorem read_average_no_overflow_witness :
    1 ≤ 3 ∧ 3 ≤ 255 ∧
      (demoBegun.read_average 1 3 hwAbsent).map Prod.fst = some (-1) ∧
      (demoBegun.readTimes 1 3 hwAbsent).map Prod.fst = some [-1, -1, -1] ∧
      demoBegun.read_average 1 3 hwAbsent =
        (demoBegun.readTimes 1 3 hwAbsent).map (fun r => (Int.tdiv r.1.sum 3, r.2)) :=
  ⟨by decide, by decide, by decide, by decide,
    (read_average_no_overflow demoBegun hwAbsent 1 3 (by decide) (by decide)).1⟩


/-! ## `HW_GPIO_Init` -/

theorem range_succ_filter_map (k : Nat) (p : Nat → Bool) (f : Nat → Event) :
    ((List.range (k + 1)).filter p).map f =
      (if p 0 then [f 0] else []) ++
        ((List.range k).filter fun i => p (i + 1)).map fun i => f (i + 1) := by
  rw [List.range_succ_eq_map, List.filter_cons, List.filter_map]
  cases p 0 <;> simp [List.map_map, Function.comp_def]

/-- The loop of `HW_GPIO_Init` on a mask below `2^k`: one pin-init call per set bit,
lowest first, with `Pin` set to the running position counter. -/
theorem HW_GPIO_Init_loop_spec (port : Nat) :
    ∀ (k pinPos m : Nat) (cfg : GPIO_InitTypeDef) (hw : Hw), m < 2 ^ k →
      pinPos + k < 2 ^ 32 →
      (HW_GPIO_Init_loop port pinPos m cfg hw).2 =
          { hw with trace := hw.trace ++
              ((List.range k).filter fun i => m.testBit i).map fun i =>
                Event.pinInit port { cfg with Pin := pinPos + i } } ∧
        (HW_GPIO_Init_loop port pinPos m cfg hw).1.Mode = cfg.Mode ∧
        (HW_GPIO_Init_loop port pinPos m cfg hw).1.Pull = cfg.Pull ∧
        (HW_GPIO_Init_loop port pinPos m cfg hw).1.Speed = cfg.Speed ∧
        (HW_GPIO_Init_loop port pinPos m cfg hw).1.Alternate = cfg.Alternate := by
  intro k
  induction k with
  | zero =>
    intro pinPos m cfg hw hm _
    have hm0 : m = 0 := by simpa using hm
    subst hm0
    rw [HW_GPIO_Init_loop]
    simp
  | succ k ih =>
    intro pinPos m cfg hw hm hp
    rw [HW_GPIO_Init_loop]
    by_cases hm0 : m = 0
    · subst hm0
      simp
    · rw [if_neg hm0]
      have hshift : m >>> 1 = m / 2 := by rw [Nat.shiftRight_eq_div_pow]
      have hm2 : m / 2 < 2 ^ k := by
        rw [pow_succ] at hm
        omega
      have hpos : (pinPos + 1) % 2 ^ 32 = pinPos + 1 := Nat.mod_eq_of_lt (by omega)
      have hbit : ∀ i, m.testBit (i + 1) = (m / 2).testBit i := fun i => Nat.testBit_succ m i
      rw [range_succ_filter_map, hshift, hpos]
      simp only [hbit, Nat.add_zero]
      have h0 : m.testBit 0 = decide (m % 2 = 1) := Nat.testBit_zero m
      rw [Nat.and_one_is_mod]
      by_cases hodd : m % 2 = 1
      · rw [if_pos (by omega)]
        obtain ⟨h1, h2, h3, h4, h5⟩ := ih (pinPos + 1) (m / 2) { cfg with Pin := pinPos }
          (HAL_GPIO_Init port { cfg with Pin := pinPos } hw) hm2 (by omega)
        refine ⟨?_, h2, h3, h4, h5⟩
        rw [h1, h0]
        simp [hodd, HAL_GPIO_Init, Nat.add_assoc, Nat.add_comm 1]
      · rw [if_neg (by omega)]
        obtain ⟨h1, h2, h3, h4, h5⟩ := ih (pinPos + 1) (m / 2) cfg hw hm2 (by omega)
        refine ⟨?_, h2, h3, h4, h5⟩
        rw [h1, h0]
        simp [hodd, Nat.add_assoc, Nat.add_comm 1]


/-- The actions of `HW_GPIO_Init` on a 16-bit mask: the clock enable, then one pin-init
call per set bit `i`, lowest first, with `Pin` holding `i + 1`. -/
theorem HW_GPIO_Init_trace (port m : Nat) (cfg : GPIO_InitTypeDef) (hw : Hw)
    (hm : m < 2 ^ 16) :
    (HW_GPIO_Init port m cfg hw).2 =
      { hw with trace := hw.trace ++ Event.clkEnable port ::
          (setBits m).map fun i => Event.pinInit port { cfg with Pin := i + 1 } } := by
  have h1 := (HW_GPIO_Init_loop_spec port 16 1 m cfg (RCC_GPIO_CLK_ENABLE port hw) hm
    (by norm_num)).1
  unfold HW_GPIO_Init
  rw [h1]
  simp [RCC_GPIO_CLK_ENABLE, setBits, Nat.add_comm 1]

/-- C7: for a 16-bit mask `m` with `k` bits set, `HW_GPIO_Init(port, m, cfg)` enables
the clock of the port and then makes exactly `k` pin-init calls (`k ≤ 16`), all on
`port`, each with the caller's record in which only `Pin` has been overwritten; the
record it leaves behind has the caller's `Mode`, `Pull`, `Speed` and `Alternate`. -/
theorem HW_GPIO_Init_calls (port m : Nat) (cfg : GPIO_InitTypeDef) (hw : Hw)
    (hm : m < 2 ^ 16) :
    ∃ pins : List Nat, pins.length = (setBits m).length ∧ (setBits m).length ≤ 16 ∧
      (HW_GPIO_Init port m cfg hw).2 =
        { hw with trace := hw.trace ++ Event.clkEnable port ::
            pins.map fun p => Event.pinInit port { cfg with Pin := p } } ∧
      (HW_GPIO_Init port m cfg hw).1.Mode = cfg.Mode ∧
      (HW_GPIO_Init port m cfg hw).1.Pull = cfg.Pull ∧
      (HW_GPIO_Init port m cfg hw).1.Speed = cfg.Speed ∧
      (HW_GPIO_Init port m cfg hw).1.Alternate = cfg.Alternate := by
  obtain ⟨_, h2, h3, h4, h5⟩ :=
    HW_GPIO_Init_loop_spec port 16 1 m cfg (RCC_GPIO_CLK_ENABLE port hw) hm (by norm_num)
  refine ⟨(setBits m).map fun i => i + 1, by simp, ?_, ?_, h2, h3, h4, h5⟩
  · unfold setBits
    exact le_trans (List.length_filter_le _ _) (by simp)
  · rw [HW_GPIO_Init_trace port m cfg hw hm]
    simp [List.map_map, Function.comp_def]

/-- The mask `0x0403` has three bits set. -/
theorem HW_GPIO_Init_calls_witness :
    0x0403 < 2 ^ 16 ∧ (setBits 0x0403).length = 3 ∧
      ∃ pins : List Nat, pins.length = (setBits 0x0403).length ∧
        (setBits 0x0403).length ≤ 16 ∧
        (HW_GPIO_Init 0x40020000 0x0403 demoConfig hwAbsent).2 =
          { hwAbsent with trace := hwAbsent.trace ++ (Event.clkEnable 0x40020000 ::
              pins.map (fun p => Event.pinInit 0x40020000 { demoConfig with Pin := p })) } ∧
        (HW_GPIO_Init 0x40020000 0x0403 demoConfig hwAbsent).1.Mode = demoConfig.Mode ∧
        (HW_GPIO_Init 0x40020000 0x0403 demoConfig hwAbsent).1.Pull = demoConfig.Pull ∧
        (HW_GPIO_Init 0x40020000 0x0403 demoConfig hwAbsent).1.Speed = demoConfig.Speed ∧
        (HW_GPIO_Init 0x40020000 0x0403 demoConfig hwAbsent).1.Alternate =
          demoConfig.Alternate :=
  ⟨by decide, by decide,
    HW_GPIO_Init_calls 0x40020000 0x0403 demoConfig hwAbsent (by decide)⟩

/-- C6: for the mask `0x0004`, whose only set bit is bit 2, `HW_GPIO_Init` makes one
pin-init call and passes the pin identifier 3, the value of the position counter,
which is not `1 << 2` and is not a single-bit identifier: it is `(1 << 0) | (1 << 1)`.
For the mask `0x8000` the identifier passed is 16 instead of `1 << 15`. -/
theorem HW_GPIO_Init_pin_identifier (port : Nat) (cfg : GPIO_InitTypeDef) (hw : Hw) :
    setBits 0x0004 = [2] ∧
      (HW_GPIO_Init port 0x0004 cfg hw).2.trace =
        hw.trace ++ [Event.clkEnable port, Event.pinInit port { cfg with Pin := 3 }] ∧
      (3 : Nat) ≠ 1 <<< 2 ∧ (3 : Nat) = 1 <<< 0 ||| 1 <<< 1 ∧
      setBits 0x8000 = [15] ∧
      (HW_GPIO_Init port 0x8000 cfg hw).2.trace =
        hw.trace ++ [Event.clkEnable port, Event.pinInit port { cfg with Pin := 16 }] ∧
      (16 : Nat) ≠ 1 <<< 15 := by
  have e4 : setBits 0x0004 = [2] := by decide
  have e8 : setBits 0x8000 = [15] := by decide
  have h4 := congrArg Hw.trace (HW_GPIO_Init_trace port 0x0004 cfg hw (by norm_num))
  have h8 := congrArg Hw.trace (HW_GPIO_Init_trace port 0x8000 cfg hw (by norm_num))
  rw [e4] at h4
  rw [e8] at h8
  exact ⟨e4, h4, by decide, by decide, e8, h8, by decide⟩

end HX711Lib
